import Mathlib

/-!
Verification of the restriction-and-kernel-invocation engine of libCEED
against its specification.

The repository snapshot under study contains the tests, gallery QFunction
registration code and example QFunction bodies of the engine; the core
element-restriction implementation itself (index-map construction and the
gather/scatter-add applies) is not part of the snapshot, so those
operations are modelled from the specification, while everything the
snapshot does contain (the t234 index construction, the gallery
field-initialization routines, the t530 and Neo-Hookean QFunction bodies)
is translated directly from the C source.

Scalars of the restriction engine are modelled by exact integers: the
engine only copies and adds scalar values (the test drives it with the
values 0.0 and 1.0), and the specification demands the mathematically
exact associative sum, so an exact carrier is faithful and keeps every
statement kernel-decidable.  The QFunction bodies, which use real
division, logarithm and square root, are modelled over the real numbers.
-/

/- ===================================================================
   Part 1: the element-restriction engine, modelled from the spec
   =================================================================== -/

/-- Modelled from the spec: the repository snapshot lacks the IndexMap /
CeedElemRestriction implementation (only its test t234-elemrestriction.c is
present).  Validated offset/index arrays describing, for each element,
which global slots it touches, together with the cached min/max
slots-per-element computed at construction. -/
structure IndexMap where
  numElements : Nat
  lVectorSize : Nat
  numComponents : Nat
  offsets : List Nat
  indices : List Nat
  minSlots : Nat
  maxSlots : Nat
deriving DecidableEq

/-- Modelled from the spec: validation error taxonomy for IndexMap
construction (`OutOfRangeIndex`, `NonMonotonicOffsets`). -/
inductive ValidationError where
  | OutOfRangeIndex
  | NonMonotonicOffsets
deriving DecidableEq

/-- Modelled from the spec: error for querying min/max slots per element
before any element owns slots. -/
inductive RestrictionError where
  | NoPointsAssigned
deriving DecidableEq

deriving instance DecidableEq for Except

/-- Boolean check that a list of offsets is monotonically non-decreasing. -/
def offsetsMonotonic : List Nat → Bool
  | [] => true
  | a :: rest =>
    match rest with
    | [] => true
    | b :: _ => decide (a ≤ b) && offsetsMonotonic rest

/-- Boolean check that every index is in `[0, lVectorSize)`; indices are
taken as signed integers so that the negative-index rejection of the spec
is expressible. -/
def indicesInRange (lVectorSize : Nat) (indices : List Int) : Bool :=
  indices.all fun i => decide (0 ≤ i) && decide (i < (lVectorSize : Int))

/-- Per-element slot counts `offsets[e+1] - offsets[e]` for `e < numElements`. -/
def slotCounts (offsets : List Nat) (numElements : Nat) : List Nat :=
  (List.range numElements).map fun e => offsets.getD (e + 1) 0 - offsets.getD e 0

/-- Minimum slots per element over all elements (0 for an empty element list). -/
def minSlotsOf (offsets : List Nat) (numElements : Nat) : Nat :=
  match slotCounts offsets numElements with
  | [] => 0
  | h :: t => t.foldl Nat.min h

/-- Maximum slots per element over all elements (0 for an empty element list). -/
def maxSlotsOf (offsets : List Nat) (numElements : Nat) : Nat :=
  match slotCounts offsets numElements with
  | [] => 0
  | h :: t => t.foldl Nat.max h

/-- Modelled from the spec: the repository snapshot lacks the IndexMap
constructor.  `build` validates eagerly — `NonMonotonicOffsets` if some
`offsets[e+1] < offsets[e]`, `OutOfRangeIndex` if some index is `< 0` or
`≥ lVectorSize` — and on success caches `minSlots`/`maxSlots`. -/
def build (numElements lVectorSize numComponents : Nat)
    (offsets : List Nat) (indices : List Int) : Except ValidationError IndexMap :=
  if offsetsMonotonic offsets = false then .error .NonMonotonicOffsets
  else if indicesInRange lVectorSize indices = false then .error .OutOfRangeIndex
  else .ok
    { numElements := numElements
      lVectorSize := lVectorSize
      numComponents := numComponents
      offsets := offsets
      indices := indices.map Int.toNat
      minSlots := minSlotsOf offsets numElements
      maxSlots := maxSlotsOf offsets numElements }

/-- Offset accessor. -/
def offD (m : IndexMap) (e : Nat) : Nat := m.offsets.getD e 0

/-- Index accessor. -/
def idxD (m : IndexMap) (k : Nat) : Nat := m.indices.getD k 0

/-- Number of local slots owned by element `e`. -/
def slotCount (m : IndexMap) (e : Nat) : Nat := offD m (e + 1) - offD m e

/-- Total number of slots assigned over all elements (`offsets[numElements]`,
with the spec invariant `offsets[0] = 0`). -/
def totalSlots (m : IndexMap) : Nat := offD m m.numElements

/-- An L-vector: one scalar per (global index, component). -/
def LVec : Type := Nat → Nat → Int

/-- An E-vector: one scalar per (element, local slot, component). -/
def EVec : Type := Nat → Nat → Nat → Int

/-- The all-zero L-vector. -/
def zeroLV : LVec := fun _ _ => 0

/-- The all-ones per-element slot buffer. -/
def onesSlots : Nat → Nat → Int := fun _ _ => 1

/-- Modelled from the spec: forward gather,
`dest[e][j][c] = source[indices[offsets[e]+j]][c]`. -/
def applyR (m : IndexMap) (source : LVec) : EVec :=
  fun e j c => source (idxD m (offD m e + j)) c

/-- Modelled from the spec: transpose scatter-add,
`dest[indices[offsets[e]+j]][c] += source[e][j][c]`, summed exactly over
all (element, slot) pairs mapping to each target index. -/
def applyTranspose (m : IndexMap) (source : EVec) (dest : LVec) : LVec :=
  fun i c => dest i c +
    ∑ e ∈ Finset.range m.numElements,
      ∑ j ∈ Finset.range (slotCount m e),
        if idxD m (offD m e + j) = i then source e j c else 0

/-- Modelled from the spec: per-element transpose scatter-add, adding only
the contributions of one named element. -/
def applyTransposeInElement (m : IndexMap) (e : Nat)
    (source : Nat → Nat → Int) (dest : LVec) : LVec :=
  fun i c => dest i c +
    ∑ j ∈ Finset.range (slotCount m e),
      if idxD m (offD m e + j) = i then source j c else 0

/-- Modelled from the spec: query of the cached minimum slots per element;
`NoPointsAssigned` before any element owns slots. -/
def getMinPointsInElement (m : IndexMap) : Except RestrictionError Nat :=
  if totalSlots m = 0 then .error .NoPointsAssigned else .ok m.minSlots

/-- Modelled from the spec: query of the cached maximum slots per element;
`NoPointsAssigned` before any element owns slots. -/
def getMaxPointsInElement (m : IndexMap) : Except RestrictionError Nat :=
  if totalSlots m = 0 then .error .NoPointsAssigned else .ok m.maxSlots

/- ===================================================================
   Part 2: the t234 cyclic point-restriction scenario, from
   src/tests/t234-elemrestriction.c
   =================================================================== -/

/-- The index-construction loop of t234-elemrestriction.c: element `i`
owns `(i+1) % 3 + 1` points, drawn cyclically modulo `num_points = 6`.
Arguments: remaining elements, current element `i`, current write offset,
current point index.  Returns the offset entries (including the final
`ind[num_elem] = offset`) and the point-index entries. -/
def t234Step : Nat → Nat → Nat → Nat → List Nat × List Nat
  | 0, _, offset, _ => ([offset], [])
  | r + 1, i, offset, pointIndex =>
    let numPointsInElem := (i + 1) % 3 + 1
    let pts := (List.range numPointsInElem).map fun j => (pointIndex + j) % 6
    let rest := t234Step r (i + 1) (offset + numPointsInElem)
      ((pointIndex + numPointsInElem) % 6)
    (offset :: rest.1, pts ++ rest.2)

/-- The full `ind` array of t234-elemrestriction.c: the first
`num_elem + 1 = 4` entries are offsets into the array itself (starting at
`num_elem + 1`), the remaining entries are the global point indices,
starting at point index `num_elem = 3`. -/
def t234Ind : List Nat :=
  let r := t234Step 3 0 4 3
  r.1 ++ r.2

/-- The offsets of the t234 restriction, normalized to start at 0 as in the
spec data model (the raw entries point into the combined `ind` array). -/
def t234Offsets : List Nat := (t234Ind.take 4).map fun a => a - 4

/-- The global point indices of the t234 restriction. -/
def t234Indices : List Nat := t234Ind.drop 4

/-- The IndexMap of the t234 scenario: 3 elements, L-vector size 6
(`num_points`), one component. -/
def t234Map : IndexMap :=
  { numElements := 3
    lVectorSize := 6
    numComponents := 1
    offsets := t234Offsets
    indices := t234Indices
    minSlots := 1
    maxSlots := 3 }

/-- The global indices owned by element `i` of the t234 restriction: the
segment of the index array belonging to that element. -/
def t234Owned (i : Nat) : List Nat :=
  (t234Map.indices.drop (offD t234Map i)).take (slotCount t234Map i)

/- ===================================================================
   Claims C1 and C10: the cyclic point-restriction scenario
   =================================================================== -/

/-- C1.  In the cyclic point-restriction configuration of
t234-elemrestriction.c (3 elements, L-vector size and point count 6, one
component, element `i` owning `(i+1) mod 3 + 1` points drawn cyclically
from global point index 3), the index construction validates and yields
exactly the t234 IndexMap; applying the per-element transpose scatter-add
of element `i` to an all-ones slot buffer and an all-zero L-vector leaves
the L-vector equal to 1 at exactly the global indices owned by element `i`
and 0 at every other index; and the min/max slots-per-element queries
return 1 and 3. -/
theorem claim_C1_cyclic_scenario :
    build 3 6 1 t234Offsets (t234Indices.map Int.ofNat) = .ok t234Map ∧
    (∀ (i : Fin 3) (p : Fin 6),
      applyTransposeInElement t234Map i.val onesSlots zeroLV p.val 0 =
        (if p.val ∈ t234Owned i.val then 1 else 0)) ∧
    getMinPointsInElement t234Map = .ok 1 ∧
    getMaxPointsInElement t234Map = .ok 3 := by
  refine ⟨by decide, by decide, by decide, by decide⟩

/-- C10.  The index construction of the cyclic three-element scenario
builds a valid no-sharing index map: the offsets stored in `ind[0..3]` are
strictly increasing starting at `numElements + 1 = 4`, the per-element
slot counts are 2, 3 and 1 (summing to `numPoints = 6`), and each global
point index in `[0, 6)` occurs exactly once among the stored point
indices, so no index is shared between two elements. -/
theorem claim_C10_t234_index_construction :
    t234Ind.take 4 = [4, 6, 9, 10] ∧
    offsetsMonotonic (t234Ind.take 4) = true ∧
    t234Ind.getD 0 0 = 3 + 1 ∧
    slotCounts t234Offsets 3 = [2, 3, 1] ∧
    (slotCounts t234Offsets 3).sum = 6 ∧
    (∀ p : Fin 6, t234Indices.count p.val = 1) ∧
    t234Indices = (List.range 3).flatMap t234Owned := by
  refine ⟨by decide, by decide, by decide, by decide, by decide, by decide, by decide⟩

/- ===================================================================
   Claims C4 and C7: construction validation and min/max queries
   =================================================================== -/

lemma offsetsMonotonic_cons_cons (a b : Nat) (t : List Nat) :
    offsetsMonotonic (a :: b :: t) = (decide (a ≤ b) && offsetsMonotonic (b :: t)) := rfl

lemma offsetsMonotonic_iff (offs : List Nat) :
    offsetsMonotonic offs = true ↔
      ∀ e, e < offs.length - 1 → offs.getD e 0 ≤ offs.getD (e + 1) 0 := by
  induction offs with
  | nil => simp [offsetsMonotonic]
  | cons a rest ih =>
    cases rest with
    | nil => simp [offsetsMonotonic]
    | cons b t =>
      rw [offsetsMonotonic_cons_cons, Bool.and_eq_true, decide_eq_true_eq, ih]
      constructor
      · rintro ⟨hab, hrest⟩ e he
        cases e with
        | zero => simpa using hab
        | succ e' =>
          have := hrest e' (by simp at he ⊢; omega)
          simpa using this
      · intro h
        refine ⟨by simpa using h 0 (by simp), fun e' he' => ?_⟩
        have := h (e' + 1) (by simp at he' ⊢; omega)
        simpa using this

lemma indicesInRange_iff (L : Nat) (inds : List Int) :
    indicesInRange L inds = true ↔ ∀ i ∈ inds, 0 ≤ i ∧ i < (L : Int) := by
  simp [indicesInRange, List.all_eq_true]

lemma build_ok_inv (ne L nc : Nat) (offs : List Nat) (inds : List Int)
    (m : IndexMap) (h : build ne L nc offs inds = .ok m) :
    m.numElements = ne ∧ m.lVectorSize = L ∧ m.numComponents = nc ∧
    m.offsets = offs ∧ m.indices = inds.map Int.toNat ∧
    m.minSlots = minSlotsOf offs ne ∧ m.maxSlots = maxSlotsOf offs ne := by
  unfold build at h
  split at h
  · exact absurd h (by simp)
  · split at h
    · exact absurd h (by simp)
    · injection h with h'
      subst h'
      exact ⟨rfl, rfl, rfl, rfl, rfl, rfl, rfl⟩

/-- C4.  IndexMap construction validates eagerly: the monotonicity and
range checkers decide exactly the spec-level conditions; any input whose
offsets decrease somewhere fails with `NonMonotonicOffsets`; any input
with monotone offsets and some index that is negative or `≥ lVectorSize`
fails with `OutOfRangeIndex`; in particular an index equal to
`lVectorSize`, a negative index, and `offsets = [0, 2, 1]` are rejected.
An `Except.error` result carries no IndexMap. -/
theorem claim_C4_validation_rejects_bad_input :
    (∀ offs : List Nat, offsetsMonotonic offs = true ↔
      ∀ e, e < offs.length - 1 → offs.getD e 0 ≤ offs.getD (e + 1) 0) ∧
    (∀ (L : Nat) (inds : List Int),
      indicesInRange L inds = true ↔ ∀ i ∈ inds, 0 ≤ i ∧ i < (L : Int)) ∧
    (∀ (ne L nc : Nat) (offs : List Nat) (inds : List Int),
      ¬ (∀ e, e < offs.length - 1 → offs.getD e 0 ≤ offs.getD (e + 1) 0) →
      build ne L nc offs inds = .error .NonMonotonicOffsets) ∧
    (∀ (ne L nc : Nat) (offs : List Nat) (inds : List Int),
      (∀ e, e < offs.length - 1 → offs.getD e 0 ≤ offs.getD (e + 1) 0) →
      ¬ (∀ i ∈ inds, 0 ≤ i ∧ i < (L : Int)) →
      build ne L nc offs inds = .error .OutOfRangeIndex) ∧
    build 1 2 1 [0, 1] [2] = .error .OutOfRangeIndex ∧
    build 1 2 1 [0, 1] [-1] = .error .OutOfRangeIndex ∧
    build 2 6 1 [0, 2, 1] [0, 1, 5] = .error .NonMonotonicOffsets := by
  refine ⟨offsetsMonotonic_iff, indicesInRange_iff, ?_, ?_, by decide, by decide, by decide⟩
  · intro ne L nc offs inds hbad
    have hfalse : offsetsMonotonic offs = false := by
      rcases Bool.eq_false_or_eq_true (offsetsMonotonic offs) with h | h
      · exact absurd ((offsetsMonotonic_iff offs).mp h) hbad
      · exact h
    unfold build
    rw [hfalse]
    simp
  · intro ne L nc offs inds hmono hbad
    have htrue : offsetsMonotonic offs = true := (offsetsMonotonic_iff offs).mpr hmono
    have hfalse : indicesInRange L inds = false := by
      rcases Bool.eq_false_or_eq_true (indicesInRange L inds) with h | h
      · exact absurd ((indicesInRange_iff L inds).mp h) hbad
      · exact h
    unfold build
    rw [htrue, hfalse]
    simp

/-- Witness for C4: the universal rejection clauses applied at concrete
inputs. -/
theorem claim_C4_witness :
    build 1 3 2 [1, 0] [0] = .error .NonMonotonicOffsets ∧
    build 1 3 1 [0, 1] [3] = .error .OutOfRangeIndex :=
  ⟨claim_C4_validation_rejects_bad_input.2.2.1 1 3 2 [1, 0] [0] (by decide),
   claim_C4_validation_rejects_bad_input.2.2.2.1 1 3 1 [0, 1] [3] (by decide) (by decide)⟩

lemma foldl_min_le_bound (k : Nat) :
    ∀ (t : List Nat) (a : Nat), k ≤ a → (∀ x ∈ t, k ≤ x) → k ≤ t.foldl Nat.min a := by
  intro t
  induction t with
  | nil => intro a ha _; simpa using ha
  | cons x rest ih =>
    intro a ha hall
    have hx : k ≤ x := hall x (by simp)
    have : k ≤ Nat.min a x := le_min ha hx
    exact ih (Nat.min a x) this fun y hy => hall y (by simp [hy])

lemma strict_offset_chain (f : Nat → Nat) :
    ∀ n, (∀ e, e < n → f e < f (e + 1)) → f 0 + n ≤ f n := by
  intro n
  induction n with
  | zero => simp
  | succ k ih =>
    intro h
    have h1 := ih fun e he => h e (Nat.lt_succ_of_lt he)
    have h2 := h k (Nat.lt_succ_self k)
    omega

lemma one_le_minSlotsOf (offs : List Nat) (ne : Nat) (hne : 0 < ne)
    (hall : ∀ e, e < ne → 0 < offs.getD (e + 1) 0 - offs.getD e 0) :
    1 ≤ minSlotsOf offs ne := by
  have hmem : ∀ x ∈ slotCounts offs ne, 1 ≤ x := by
    intro x hx
    unfold slotCounts at hx
    obtain ⟨e, he, hxe⟩ := List.mem_map.mp hx
    have := hall e (List.mem_range.mp he)
    omega
  unfold minSlotsOf
  have hnil : slotCounts offs ne ≠ [] := by
    unfold slotCounts
    simp only [ne_eq, List.map_eq_nil_iff, List.range_eq_nil]
    omega
  obtain ⟨h0, t, heq⟩ := List.exists_cons_of_ne_nil hnil
  rw [heq]
  have h0mem : 1 ≤ h0 := hmem h0 (by rw [heq]; simp)
  exact foldl_min_le_bound 1 t h0 h0mem fun y hy => hmem y (by rw [heq]; simp [hy])

/-- C7.  `minSlots`/`maxSlots` are computed once at construction and
cached in the IndexMap; on a restriction from `build` in which there is at
least one element and every element owns at least one slot, the queries
return the cached values and `minSlots ≥ 1`; on a restriction before any
element owns slots, the queries fail with `NoPointsAssigned` rather than
returning zero. -/
theorem claim_C7_minmax_points_queries :
    (∀ (ne L nc : Nat) (offs : List Nat) (inds : List Int) (m : IndexMap),
      build ne L nc offs inds = .ok m →
      m.minSlots = minSlotsOf offs ne ∧ m.maxSlots = maxSlotsOf offs ne) ∧
    (∀ (ne L nc : Nat) (offs : List Nat) (inds : List Int) (m : IndexMap),
      build ne L nc offs inds = .ok m → 0 < ne →
      (∀ e, e < ne → 0 < slotCount m e) →
      getMinPointsInElement m = .ok m.minSlots ∧
      getMaxPointsInElement m = .ok m.maxSlots ∧
      1 ≤ m.minSlots) ∧
    (∀ m : IndexMap, totalSlots m = 0 →
      getMinPointsInElement m = .error .NoPointsAssigned ∧
      getMaxPointsInElement m = .error .NoPointsAssigned) := by
  refine ⟨?_, ?_, ?_⟩
  · intro ne L nc offs inds m h
    obtain ⟨-, -, -, -, -, hmin, hmax⟩ := build_ok_inv ne L nc offs inds m h
    exact ⟨hmin, hmax⟩
  · intro ne L nc offs inds m h hne hall
    obtain ⟨hne', -, -, hoffs, -, hmin, -⟩ := build_ok_inv ne L nc offs inds m h
    have hslot : ∀ e, e < ne → 0 < offs.getD (e + 1) 0 - offs.getD e 0 := by
      intro e he
      have := hall e he
      unfold slotCount offD at this
      rw [hoffs] at this
      exact this
    have hchain : ∀ e, e < ne → offs.getD e 0 < offs.getD (e + 1) 0 := by
      intro e he
      have := hslot e he
      omega
    have hchain2 : offs.getD 0 0 + ne ≤ offs.getD ne 0 := by
      have h' := strict_offset_chain (fun e => offs.getD e 0) ne hchain
      simpa using h'
    have htot : 0 < totalSlots m := by
      have heqt : totalSlots m = offs.getD ne 0 := by
        unfold totalSlots offD
        rw [hoffs, hne']
      omega
    have hmin1 : 1 ≤ m.minSlots := by
      rw [hmin]
      exact one_le_minSlotsOf offs ne hne hslot
    refine ⟨?_, ?_, hmin1⟩
    · unfold getMinPointsInElement
      rw [if_neg (by omega)]
    · unfold getMaxPointsInElement
      rw [if_neg (by omega)]
  · intro m h
    unfold getMinPointsInElement getMaxPointsInElement
    rw [h]
    exact ⟨rfl, rfl⟩

/-- Witness for C7: the t234 restriction for the positive clauses, and a
slotless two-element restriction for the `NoPointsAssigned` clause. -/
theorem claim_C7_witness :
    (getMinPointsInElement t234Map = .ok t234Map.minSlots ∧
      getMaxPointsInElement t234Map = .ok t234Map.maxSlots ∧
      1 ≤ t234Map.minSlots) ∧
    getMinPointsInElement
        { numElements := 2, lVectorSize := 4, numComponents := 1,
          offsets := [0, 0, 0], indices := [], minSlots := 0, maxSlots := 0 } =
      .error .NoPointsAssigned :=
  ⟨claim_C7_minmax_points_queries.2.1 3 6 1 t234Offsets (t234Indices.map Int.ofNat)
      t234Map (by decide) (by decide) (by decide),
   (claim_C7_minmax_points_queries.2.2
      { numElements := 2, lVectorSize := 4, numComponents := 1,
        offsets := [0, 0, 0], indices := [], minSlots := 0, maxSlots := 0 }
      (by decide)).1⟩

/- ===================================================================
   Claims C2 and C3: round-trip identity and conservation
   =================================================================== -/

/-- C2.  For a restriction that is a pure permutation — each element owns
exactly one slot, no global index appears in two elements, and there are
as many elements as L-vector entries — the transpose scatter-add of the
gather of any L-vector, accumulated into the zero L-vector, returns the
original L-vector exactly, at every index and component. -/
theorem claim_C2_round_trip_identity (m : IndexMap) (x : LVec)
    (hone : ∀ e, e < m.numElements → slotCount m e = 1)
    (hvalid : ∀ e, e < m.numElements → idxD m (offD m e) < m.lVectorSize)
    (hinj : ∀ e1, e1 < m.numElements → ∀ e2, e2 < m.numElements →
      idxD m (offD m e1) = idxD m (offD m e2) → e1 = e2)
    (hperm : m.numElements = m.lVectorSize) :
    ∀ i, i < m.lVectorSize → ∀ c,
      applyTranspose m (applyR m x) zeroLV i c = x i c := by
  intro i hi c
  unfold applyTranspose zeroLV applyR
  simp only [zero_add]
  have hstep1 : ∀ e ∈ Finset.range m.numElements,
      (∑ j ∈ Finset.range (slotCount m e),
        if idxD m (offD m e + j) = i then x (idxD m (offD m e + j)) c else 0) =
        (if idxD m (offD m e) = i then x (idxD m (offD m e)) c else 0) := by
    intro e he
    rw [hone e (Finset.mem_range.mp he), Finset.sum_range_one, Nat.add_zero]
  rw [Finset.sum_congr rfl hstep1]
  have himg : (Finset.range m.numElements).image (fun e => idxD m (offD m e)) =
      Finset.range m.lVectorSize := by
    apply Finset.eq_of_subset_of_card_le
    · intro y hy
      obtain ⟨e, he, rfl⟩ := Finset.mem_image.mp hy
      exact Finset.mem_range.mpr (hvalid e (Finset.mem_range.mp he))
    · rw [Finset.card_range,
        Finset.card_image_of_injOn fun e1 h1 e2 h2 heq =>
          hinj e1 (Finset.mem_range.mp h1) e2 (Finset.mem_range.mp h2) heq,
        Finset.card_range]
      omega
  have hmem : i ∈ (Finset.range m.numElements).image (fun e => idxD m (offD m e)) := by
    rw [himg]
    exact Finset.mem_range.mpr hi
  obtain ⟨e0, he0, hfe0⟩ := Finset.mem_image.mp hmem
  rw [Finset.sum_eq_single_of_mem e0 he0]
  · rw [if_pos hfe0, hfe0]
  · intro b hb hbne
    rcases eq_or_ne (idxD m (offD m b)) i with heq | hne
    · exact absurd
        (hinj b (Finset.mem_range.mp hb) e0 (Finset.mem_range.mp he0)
          (heq.trans hfe0.symm)) hbne
    · exact if_neg hne

/-- The two-element pure-permutation restriction used to witness C2. -/
def permMap2 : IndexMap :=
  { numElements := 2
    lVectorSize := 2
    numComponents := 1
    offsets := [0, 1, 2]
    indices := [1, 0]
    minSlots := 1
    maxSlots := 1 }

/-- The L-vector used to witness C2. -/
def permVec2 : LVec := fun i _ => (i : Int) + 1

/-- Witness for C2: the round-trip identity evaluated on the concrete
two-element permutation. -/
theorem claim_C2_witness :
    applyTranspose permMap2 (applyR permMap2 permVec2) zeroLV 0 0 = permVec2 0 0 :=
  claim_C2_round_trip_identity permMap2 permVec2 (by decide) (by decide)
    (by decide) (by decide) 0 (by decide) 0

/-- C3.  Every output entry of the transpose scatter-add into the zero
L-vector equals the exact sum of the E-vector entries over all
(element, slot) pairs whose index maps to that entry; consequently, for a
restriction whose indices are in range and in which no global index
appears in more than one element, the sum of all entries of the output
L-vector equals the sum of all entries of the E-vector input. -/
theorem claim_C3_conservation_no_sharing (m : IndexMap) (src : EVec)
    (hvalid : ∀ e, e < m.numElements → ∀ j, j < slotCount m e →
      idxD m (offD m e + j) < m.lVectorSize)
    (hnoshare : ∀ e1, e1 < m.numElements → ∀ j1, j1 < slotCount m e1 →
      ∀ e2, e2 < m.numElements → ∀ j2, j2 < slotCount m e2 →
      idxD m (offD m e1 + j1) = idxD m (offD m e2 + j2) → e1 = e2) :
    (∀ i c, applyTranspose m src zeroLV i c =
      ∑ σ ∈ ((Finset.range m.numElements).sigma fun e =>
          Finset.range (slotCount m e)).filter
          (fun σ => idxD m (offD m σ.1 + σ.2) = i),
        src σ.1 σ.2 c) ∧
    (∑ i ∈ Finset.range m.lVectorSize, ∑ c ∈ Finset.range m.numComponents,
        applyTranspose m src zeroLV i c) =
      ∑ e ∈ Finset.range m.numElements, ∑ j ∈ Finset.range (slotCount m e),
        ∑ c ∈ Finset.range m.numComponents, src e j c := by
  have expand : ∀ i c, applyTranspose m src zeroLV i c =
      ∑ σ ∈ (Finset.range m.numElements).sigma fun e =>
          Finset.range (slotCount m e),
        if idxD m (offD m σ.1 + σ.2) = i then src σ.1 σ.2 c else 0 := by
    intro i c
    unfold applyTranspose zeroLV
    rw [zero_add, Finset.sum_sigma]
  constructor
  · intro i c
    rw [expand i c, Finset.sum_filter]
  · calc
      (∑ i ∈ Finset.range m.lVectorSize, ∑ c ∈ Finset.range m.numComponents,
          applyTranspose m src zeroLV i c)
        = ∑ i ∈ Finset.range m.lVectorSize, ∑ c ∈ Finset.range m.numComponents,
            ∑ σ ∈ (Finset.range m.numElements).sigma fun e =>
              Finset.range (slotCount m e),
              if idxD m (offD m σ.1 + σ.2) = i then src σ.1 σ.2 c else 0 :=
          Finset.sum_congr rfl fun i _ => Finset.sum_congr rfl fun c _ => expand i c
      _ = ∑ c ∈ Finset.range m.numComponents, ∑ i ∈ Finset.range m.lVectorSize,
            ∑ σ ∈ (Finset.range m.numElements).sigma fun e =>
              Finset.range (slotCount m e),
              if idxD m (offD m σ.1 + σ.2) = i then src σ.1 σ.2 c else 0 :=
          Finset.sum_comm
      _ = ∑ c ∈ Finset.range m.numComponents,
            ∑ σ ∈ (Finset.range m.numElements).sigma fun e =>
              Finset.range (slotCount m e),
            ∑ i ∈ Finset.range m.lVectorSize,
              if idxD m (offD m σ.1 + σ.2) = i then src σ.1 σ.2 c else 0 :=
          Finset.sum_congr rfl fun c _ => Finset.sum_comm
      _ = ∑ c ∈ Finset.range m.numComponents,
            ∑ σ ∈ (Finset.range m.numElements).sigma fun e =>
              Finset.range (slotCount m e),
              src σ.1 σ.2 c := by
          refine Finset.sum_congr rfl fun c _ => Finset.sum_congr rfl fun σ hσ => ?_
          obtain ⟨h1, h2⟩ := Finset.mem_sigma.mp hσ
          rw [Finset.sum_ite_eq]
          exact if_pos (Finset.mem_range.mpr
            (hvalid σ.1 (Finset.mem_range.mp h1) σ.2 (Finset.mem_range.mp h2)))
      _ = ∑ σ ∈ (Finset.range m.numElements).sigma fun e =>
              Finset.range (slotCount m e),
            ∑ c ∈ Finset.range m.numComponents, src σ.1 σ.2 c :=
          Finset.sum_comm
      _ = ∑ e ∈ Finset.range m.numElements, ∑ j ∈ Finset.range (slotCount m e),
            ∑ c ∈ Finset.range m.numComponents, src e j c :=
          Finset.sum_sigma _ _ _

/-- The E-vector used to witness C3. -/
def evecW : EVec := fun e j _ => (e : Int) * 10 + (j : Int)

/-- Witness for C3: conservation evaluated on the concrete t234
restriction, which shares no index between elements. -/
theorem claim_C3_witness :
    (∑ i ∈ Finset.range t234Map.lVectorSize,
        ∑ c ∈ Finset.range t234Map.numComponents,
        applyTranspose t234Map evecW zeroLV i c) =
      ∑ e ∈ Finset.range t234Map.numElements,
        ∑ j ∈ Finset.range (slotCount t234Map e),
        ∑ c ∈ Finset.range t234Map.numComponents, evecW e j c :=
  (claim_C3_conservation_no_sharing t234Map evecW (by decide) (by decide)).2

/- ===================================================================
   Part 3: QFunction registration, from src/gallery
   =================================================================== -/

/-- Ceed error codes used by the registration and kernel code. -/
inductive CeedErrCode where
  | SUCCESS
  | UNSUPPORTED
deriving DecidableEq

/-- Field evaluation modes (`CEED_EVAL_*`). -/
inductive CeedEvalMode where
  | NONE
  | INTERP
  | GRAD
  | DIV
  | CURL
  | WEIGHT
deriving DecidableEq

/-- One declared QFunction field: name, component count, evaluation mode. -/
structure QField where
  fieldName : String
  size : Nat
  emode : CeedEvalMode
deriving DecidableEq

/-- A field declaration: an `AddInput` or `AddOutput` call. -/
inductive QFieldDecl where
  | input : QField → QFieldDecl
  | output : QField → QFieldDecl
deriving DecidableEq

/-- CeedQFunctionInit_Poisson3DBuild from
src/gallery/poisson/ceed-poisson3dbuild.c: checks the requested name
against "Poisson3DBuild" (returning CEED_ERROR_UNSUPPORTED — the spec's
NameMismatch — on mismatch, with no fields added), then declares input
"dx" (dim*dim = 9, GRAD), input "weights" (1, WEIGHT), output "qdata"
(dim*(dim+1)/2 = 6, NONE). -/
def CeedQFunctionInit_Poisson3DBuild (requested : String) :
    Except CeedErrCode (List QFieldDecl) :=
  let name := "Poisson3DBuild"
  if name ≠ requested then .error .UNSUPPORTED
  else .ok
    [ .input ⟨"dx", 3 * 3, .GRAD⟩,
      .input ⟨"weights", 1, .WEIGHT⟩,
      .output ⟨"qdata", 3 * (3 + 1) / 2, .NONE⟩ ]

/-- CeedQFunctionInit_Vector3Poisson1DApply from
src/gallery/poisson-vector/ceed-vectorpoisson1dapply.c: checks the
requested name against "Vector3Poisson1DApply" (CEED_ERROR_UNSUPPORTED on
mismatch, no fields added), then declares input "du" (num_comp*dim = 3,
GRAD), input "qdata" (dim*(dim+1)/2 = 1, NONE), output "dv" (3, GRAD). -/
def CeedQFunctionInit_Vector3Poisson1DApply (requested : String) :
    Except CeedErrCode (List QFieldDecl) :=
  let name := "Vector3Poisson1DApply"
  if name ≠ requested then .error .UNSUPPORTED
  else .ok
    [ .input ⟨"du", 3 * 1, .GRAD⟩,
      .input ⟨"qdata", 1 * (1 + 1) / 2, .NONE⟩,
      .output ⟨"dv", 3 * 1, .GRAD⟩ ]

/-- C5.  For both gallery field-initialization routines in the snapshot,
a requested name that differs from the kernel's declared name makes the
routine fail (with CEED_ERROR_UNSUPPORTED, the spec's NameMismatch) and
register no input or output fields (the error carries no field list);
the declared name itself succeeds and declares exactly the kernel's
fixed field list. -/
theorem claim_C5_name_mismatch_rejection :
    (∀ requested : String, requested ≠ "Poisson3DBuild" →
      CeedQFunctionInit_Poisson3DBuild requested = .error .UNSUPPORTED) ∧
    CeedQFunctionInit_Poisson3DBuild "Poisson3DBuild" = .ok
      [ .input ⟨"dx", 9, .GRAD⟩,
        .input ⟨"weights", 1, .WEIGHT⟩,
        .output ⟨"qdata", 6, .NONE⟩ ] ∧
    (∀ requested : String, requested ≠ "Vector3Poisson1DApply" →
      CeedQFunctionInit_Vector3Poisson1DApply requested = .error .UNSUPPORTED) ∧
    CeedQFunctionInit_Vector3Poisson1DApply "Vector3Poisson1DApply" = .ok
      [ .input ⟨"du", 3, .GRAD⟩,
        .input ⟨"qdata", 1, .NONE⟩,
        .output ⟨"dv", 3, .GRAD⟩ ] ∧
    (∀ requested : String, ∀ fields : List QFieldDecl,
      CeedQFunctionInit_Poisson3DBuild requested = .ok fields →
      requested = "Poisson3DBuild") := by
  refine ⟨?_, by decide, ?_, by decide, ?_⟩
  · intro requested h
    unfold CeedQFunctionInit_Poisson3DBuild
    rw [if_pos (Ne.symm h)]
  · intro requested h
    unfold CeedQFunctionInit_Vector3Poisson1DApply
    rw [if_pos (Ne.symm h)]
  · intro requested fields h
    unfold CeedQFunctionInit_Poisson3DBuild at h
    by_cases hr : "Poisson3DBuild" = requested
    · exact hr.symm
    · rw [if_pos hr] at h
      exact absurd h (by simp)

/-- Witness for C5: a declared name "Poisson3DBuild" registered under the
wrong requested name "B" is rejected. -/
theorem claim_C5_witness :
    CeedQFunctionInit_Poisson3DBuild "B" = .error .UNSUPPORTED ∧
    CeedQFunctionInit_Vector3Poisson1DApply "B" = .error .UNSUPPORTED :=
  ⟨claim_C5_name_mismatch_rejection.1 "B" (by decide),
   claim_C5_name_mismatch_rejection.2.2.1 "B" (by decide)⟩

/- ===================================================================
   Part 4: QFunction kernel bodies, from src/tests/t530-operator.h and
   src/examples/solids/qfunctions/finite-strain-neo-hookean.h
   (CeedScalar = double is modelled by the real numbers)
   =================================================================== -/

/-- CEED_ERROR_SUCCESS, the zero status returned by QFunction bodies. -/
def CEED_ERROR_SUCCESS : Int := 0

/-- setup from src/tests/t530-operator.h: per point `i < Q`,
`rho[i] = weight[i] * (J[i+Q*0]*J[i+Q*3] - J[i+Q*1]*J[i+Q*2])`; entries
outside the written range keep the prior buffer contents. -/
noncomputable def setup (ctx : Unit) (Q : Nat) (weight J rho : Nat → ℝ) :
    Int × (Nat → ℝ) :=
  (0, fun i => if i < Q then
    weight i * (J (i + Q * 0) * J (i + Q * 3) - J (i + Q * 1) * J (i + Q * 2))
    else rho i)

/-- mass from src/tests/t530-operator.h: per point `i < Q`,
`v[i] = rho[i] * u[i]`. -/
noncomputable def mass (ctx : Unit) (Q : Nat) (rho u v : Nat → ℝ) :
    Int × (Nat → ℝ) :=
  (0, fun i => if i < Q then rho i * u i else v i)

/-- Accessor for a 3x3 matrix built from nine scalars (row-major array literal). -/
def mk3 (a00 a01 a02 a10 a11 a12 a20 a21 a22 : ℝ) : Nat → Nat → ℝ :=
  fun i j =>
    match i, j with
    | 0, 0 => a00
    | 0, 1 => a01
    | 0, 2 => a02
    | 1, 0 => a10
    | 1, 1 => a11
    | 1, 2 => a12
    | 2, 0 => a20
    | 2, 1 => a21
    | 2, 2 => a22
    | _, _ => 0

/-- Length-6 array accessor built from six scalars. -/
def mk6 (b0 b1 b2 b3 b4 b5 : ℝ) : Nat → ℝ :=
  fun m =>
    match m with
    | 0 => b0
    | 1 => b1
    | 2 => b2
    | 3 => b3
    | 4 => b4
    | 5 => b5
    | _ => 0

/-- The Voigt row index table `indj = {0, 1, 2, 1, 0, 0}`. -/
def indjFS : Nat → Nat
  | 0 => 0
  | 1 => 1
  | 2 => 2
  | 3 => 1
  | 4 => 0
  | _ => 0

/-- The Voigt column index table `indk = {0, 1, 2, 2, 2, 1}`. -/
def indkFS : Nat → Nat
  | 0 => 0
  | 1 => 1
  | 2 => 2
  | 3 => 2
  | 4 => 2
  | 5 => 1
  | _ => 0

lemma indjFS_lt (m : Nat) : indjFS m < 3 := by
  unfold indjFS
  split <;> omega

lemma indkFS_lt (m : Nat) : indkFS m < 3 := by
  unfold indkFS
  split <;> omega

/-- log1p_series_shifted from finite-strain-neo-hookean.h: shifted series
approximation of `log1p`, with the range-extension branch on
`[sqrt 2 / 2 - 1, sqrt 2 - 1]`. -/
noncomputable def log1p_series_shifted (x : ℝ) : ℝ :=
  let left := Real.sqrt 2 / 2 - 1
  let right := Real.sqrt 2 - 1
  let sx : ℝ × ℝ :=
    if x < left then (-(Real.log 2) / 2, 1 + 2 * x)
    else if right < x then (Real.log 2 / 2, (x - 1) / 2)
    else (0, x)
  let y := sx.2 / (2 + sx.2)
  let y2 := y * y
  let y3 := y * y2
  let y5 := y3 * y2
  let y7 := y5 * y2
  2 * (sx.1 + y + y3 / 3 + y5 / 5 + y7 / 7)

/-- computeJM1 from finite-strain-neo-hookean.h: `det(I + grad_u) - 1`
expanded in the entries of `grad_u`. -/
noncomputable def computeJM1 (g : Nat → Nat → ℝ) : ℝ :=
  g 0 0 * (g 1 1 * g 2 2 - g 1 2 * g 2 1) +
  g 0 1 * (g 1 2 * g 2 0 - g 1 0 * g 2 2) +
  g 0 2 * (g 1 0 * g 2 1 - g 2 0 * g 1 1) +
  g 0 0 + g 1 1 + g 2 2 +
  g 0 0 * g 1 1 + g 0 0 * g 2 2 + g 1 1 * g 2 2 -
  g 0 1 * g 1 0 - g 0 2 * g 2 0 - g 1 2 * g 2 1

/-- computeMatinvSym from finite-strain-neo-hookean.h: the adjugate
entries of a symmetric 3x3 matrix, each divided by `detA` with no guard,
and the unconditional CEED_ERROR_SUCCESS status. -/
noncomputable def computeMatinvSym (A : Nat → Nat → ℝ) (detA : ℝ) :
    Int × (Nat → ℝ) :=
  let B := mk6
    (A 1 1 * A 2 2 - A 1 2 * A 2 1)
    (A 0 0 * A 2 2 - A 0 2 * A 2 0)
    (A 0 0 * A 1 1 - A 0 1 * A 1 0)
    (A 0 2 * A 1 0 - A 0 0 * A 1 2)
    (A 0 1 * A 1 2 - A 0 2 * A 1 1)
    (A 0 2 * A 2 1 - A 0 1 * A 2 2)
  (CEED_ERROR_SUCCESS, fun m => B m / detA)

/-- The doubled Green-Lagrange strain workspace `E2work` of commonFS. -/
noncomputable def E2workFS (g : Nat → Nat → ℝ) (m : Nat) : ℝ :=
  g (indjFS m) (indkFS m) + g (indkFS m) (indjFS m) +
    ∑ n ∈ Finset.range 3, g n (indjFS m) * g n (indkFS m)

/-- The symmetric matrix `E2` assembled from `E2work` in commonFS. -/
noncomputable def E2FS (g : Nat → Nat → ℝ) : Nat → Nat → ℝ :=
  mk3 (E2workFS g 0) (E2workFS g 5) (E2workFS g 4)
      (E2workFS g 5) (E2workFS g 1) (E2workFS g 3)
      (E2workFS g 4) (E2workFS g 3) (E2workFS g 2)

/-- The right Cauchy-Green tensor `C = I + 2E` assembled in commonFS. -/
noncomputable def CFS (g : Nat → Nat → ℝ) : Nat → Nat → ℝ :=
  mk3 (1 + E2FS g 0 0) (E2FS g 0 1) (E2FS g 0 2)
      (E2FS g 0 1) (1 + E2FS g 1 1) (E2FS g 1 2)
      (E2FS g 0 2) (E2FS g 1 2) (1 + E2FS g 2 2)

/-- The determinant `detC = (Jm1 + 1)^2` that commonFS passes to
computeMatinvSym. -/
noncomputable def commonFS_detC (g : Nat → Nat → ℝ) : ℝ :=
  (computeJM1 g + 1) * (computeJM1 g + 1)

/-- The `Cinvwork` array computed by commonFS via computeMatinvSym. -/
noncomputable def CinvworkFS (g : Nat → Nat → ℝ) : Nat → ℝ :=
  (computeMatinvSym (CFS g) (commonFS_detC g)).2

/-- The symmetric matrix `C_inv` assembled from `Cinvwork` in commonFS. -/
noncomputable def CinvFS (g : Nat → Nat → ℝ) : Nat → Nat → ℝ :=
  mk3 (CinvworkFS g 0) (CinvworkFS g 5) (CinvworkFS g 4)
      (CinvworkFS g 5) (CinvworkFS g 1) (CinvworkFS g 3)
      (CinvworkFS g 4) (CinvworkFS g 3) (CinvworkFS g 2)

/-- The second Piola-Kirchhoff workspace `Swork` computed by commonFS. -/
noncomputable def SworkFS (lam mu : ℝ) (g : Nat → Nat → ℝ) (m : Nat) : ℝ :=
  lam * log1p_series_shifted (computeJM1 g) * CinvworkFS g m +
    ∑ n ∈ Finset.range 3, mu * CinvFS g (indjFS m) n * E2FS g n (indkFS m)

/-- commonFS from finite-strain-neo-hookean.h: returns the unconditional
CEED_ERROR_SUCCESS status together with `Swork`, `Cinvwork` and `logJ`. -/
noncomputable def commonFS (lam mu : ℝ) (g : Nat → Nat → ℝ) :
    Int × (Nat → ℝ) × (Nat → ℝ) × ℝ :=
  (CEED_ERROR_SUCCESS, SworkFS lam mu g, CinvworkFS g,
   log1p_series_shifted (computeJM1 g))

/-- The Physics context struct (Poisson ratio and Young's modulus). -/
structure Physics where
  nu : ℝ
  E : ℝ

/-- Flat E/Q-vector accessor for the cast
`(const CeedScalar(*)[3][CEED_Q_VLA]) in[0]`: `ug[a][b][i] = in0[(a*3+b)*Q+i]`. -/
def ugA (Q : Nat) (in0 : Nat → ℝ) (a b i : Nat) : ℝ := in0 ((a * 3 + b) * Q + i)

/-- Flat accessor for the cast `(const CeedScalar(*)[CEED_Q_VLA]) in[1]`:
`q_data[k][i] = in1[k*Q+i]`. -/
def qdA (Q : Nat) (in1 : Nat → ℝ) (k i : Nat) : ℝ := in1 (k * Q + i)

/-- The spatial derivatives `du[a][b] = ug[b][a][i]` read at point `i` in
ElasFSResidual_NH. -/
def NH_du (Q : Nat) (in0 : Nat → ℝ) (i a b : Nat) : ℝ := ugA Q in0 b a i

/-- The inverse coordinate Jacobian rows `dXdx[j][k] = q_data[1+j*3+k][i]`
read at point `i`. -/
def NH_dXdx (Q : Nat) (in1 : Nat → ℝ) (i j k : Nat) : ℝ :=
  qdA Q in1 (1 + j * 3 + k) i

/-- The quadrature weight `wdetJ = q_data[0][i]` read at point `i`. -/
def NH_wdetJ (Q : Nat) (in1 : Nat → ℝ) (i : Nat) : ℝ := qdA Q in1 0 i

/-- Gradient value `grad_u[j][k][i] = sum_m dXdx[m][k] * du[j][m]`, which
ElasFSResidual_NH writes to its second output and reads back. -/
noncomputable def NH_gradU (Q : Nat) (in0 in1 : Nat → ℝ) (i j k : Nat) : ℝ :=
  ∑ m ∈ Finset.range 3, NH_dXdx Q in1 i m k * NH_du Q in0 i j m

/-- The deformation gradient `F = I + grad_u` at point `i`. -/
noncomputable def NH_F (Q : Nat) (in0 in1 : Nat → ℝ) (i : Nat) : Nat → Nat → ℝ :=
  mk3 (NH_gradU Q in0 in1 i 0 0 + 1) (NH_gradU Q in0 in1 i 0 1) (NH_gradU Q in0 in1 i 0 2)
      (NH_gradU Q in0 in1 i 1 0) (NH_gradU Q in0 in1 i 1 1 + 1) (NH_gradU Q in0 in1 i 1 2)
      (NH_gradU Q in0 in1 i 2 0) (NH_gradU Q in0 in1 i 2 1) (NH_gradU Q in0 in1 i 2 2 + 1)

/-- The `Swork` array returned by commonFS applied to `grad_u` at point `i`. -/
noncomputable def NH_Sw (lam mu : ℝ) (Q : Nat) (in0 in1 : Nat → ℝ) (i : Nat) :
    Nat → ℝ :=
  (commonFS lam mu fun j k => NH_gradU Q in0 in1 i j k).2.1

/-- The second Piola-Kirchhoff tensor `S` assembled from `Swork` of
commonFS applied to `grad_u` at point `i`. -/
noncomputable def NH_S (lam mu : ℝ) (Q : Nat) (in0 in1 : Nat → ℝ) (i : Nat) :
    Nat → Nat → ℝ :=
  mk3 (NH_Sw lam mu Q in0 in1 i 0) (NH_Sw lam mu Q in0 in1 i 5) (NH_Sw lam mu Q in0 in1 i 4)
      (NH_Sw lam mu Q in0 in1 i 5) (NH_Sw lam mu Q in0 in1 i 1) (NH_Sw lam mu Q in0 in1 i 3)
      (NH_Sw lam mu Q in0 in1 i 4) (NH_Sw lam mu Q in0 in1 i 3) (NH_Sw lam mu Q in0 in1 i 2)

/-- The first Piola-Kirchhoff tensor `P[j][k] = sum_m F[j][m] * S[m][k]`. -/
noncomputable def NH_P (lam mu : ℝ) (Q : Nat) (in0 in1 : Nat → ℝ) (i j k : Nat) : ℝ :=
  ∑ m ∈ Finset.range 3, NH_F Q in0 in1 i j m * NH_S lam mu Q in0 in1 i m k

/-- The output value `dvdX[k][j][i] = sum_m dXdx[k][m] * P[j][m] * wdetJ`. -/
noncomputable def NH_dvdX (lam mu : ℝ) (Q : Nat) (in0 in1 : Nat → ℝ)
    (i k j : Nat) : ℝ :=
  ∑ m ∈ Finset.range 3, NH_dXdx Q in1 i k m * NH_P lam mu Q in0 in1 i j m *
    NH_wdetJ Q in1 i

/-- The Lamé parameter `lambda = (3*Kbulk - TwoMu) / 3` computed from the
Physics context. -/
noncomputable def NH_lambda (ctx : Physics) : ℝ :=
  (3 * (ctx.E / (3 * (1 - 2 * ctx.nu))) - ctx.E / (1 + ctx.nu)) / 3

/-- The shear modulus `mu = TwoMu / 2` computed from the Physics context. -/
noncomputable def NH_mu (ctx : Physics) : ℝ := ctx.E / (1 + ctx.nu) / 2

/-- ElasFSResidual_NH from finite-strain-neo-hookean.h: per point
`i < Q` it writes `dvdX[k][j][i]` to output 0 at flat position
`(k*3+j)*Q + i` and `grad_u[j][k][i]` to output 1 at flat position
`(j*3+k)*Q + i`; entries outside the written ranges keep the prior buffer
contents; the status is unconditionally CEED_ERROR_SUCCESS. -/
noncomputable def ElasFSResidual_NH (ctx : Physics) (Q : Nat)
    (in0 in1 out0 out1 : Nat → ℝ) : Int × (Nat → ℝ) × (Nat → ℝ) :=
  let lam := NH_lambda ctx
  let mu := NH_mu ctx
  (CEED_ERROR_SUCCESS,
   fun n => if n < 9 * Q then
     NH_dvdX lam mu Q in0 in1 (n % Q) (n / Q / 3) (n / Q % 3) else out0 n,
   fun n => if n < 9 * Q then
     NH_gradU Q in0 in1 (n % Q) (n / Q / 3) (n / Q % 3) else out1 n)

/- ===================================================================
   Claim C6: zero-point invocation is a success and a no-op
   =================================================================== -/

/-- C6.  For every context and every input and output buffer, invoking a
kernel with `numPoints = 0` returns the success status and leaves every
output buffer entry unchanged, for each of the three kernel bodies in the
snapshot (setup and mass of t530-operator.h, ElasFSResidual_NH of
finite-strain-neo-hookean.h). -/
theorem claim_C6_zero_point_invocation :
    (∀ (ctx : Unit) (weight J rho : Nat → ℝ),
      setup ctx 0 weight J rho = (CEED_ERROR_SUCCESS, rho)) ∧
    (∀ (ctx : Unit) (rho u v : Nat → ℝ),
      mass ctx 0 rho u v = (CEED_ERROR_SUCCESS, v)) ∧
    (∀ (ctx : Physics) (in0 in1 out0 out1 : Nat → ℝ),
      ElasFSResidual_NH ctx 0 in0 in1 out0 out1 =
        (CEED_ERROR_SUCCESS, out0, out1)) := by
  refine ⟨?_, ?_, ?_⟩
  · intro ctx weight J rho
    unfold setup CEED_ERROR_SUCCESS
    refine Prod.ext rfl (funext fun i => ?_)
    simp
  · intro ctx rho u v
    unfold mass CEED_ERROR_SUCCESS
    refine Prod.ext rfl (funext fun i => ?_)
    simp
  · intro ctx in0 in1 out0 out1
    unfold ElasFSResidual_NH
    refine Prod.ext rfl (Prod.ext (funext fun n => ?_) (funext fun n => ?_)) <;>
      simp

/- ===================================================================
   Claim C8: kernel bodies are deterministic and read only their
   declared input regions
   =================================================================== -/

lemma computeJM1_congr (g g' : Nat → Nat → ℝ)
    (hg : ∀ j k, j < 3 → k < 3 → g j k = g' j k) :
    computeJM1 g = computeJM1 g' := by
  unfold computeJM1
  rw [hg 0 0 (by omega) (by omega), hg 0 1 (by omega) (by omega),
      hg 0 2 (by omega) (by omega), hg 1 0 (by omega) (by omega),
      hg 1 1 (by omega) (by omega), hg 1 2 (by omega) (by omega),
      hg 2 0 (by omega) (by omega), hg 2 1 (by omega) (by omega),
      hg 2 2 (by omega) (by omega)]

lemma E2workFS_congr (g g' : Nat → Nat → ℝ)
    (hg : ∀ j k, j < 3 → k < 3 → g j k = g' j k) :
    E2workFS g = E2workFS g' := by
  funext m
  unfold E2workFS
  have hsum : (∑ n ∈ Finset.range 3, g n (indjFS m) * g n (indkFS m)) =
      ∑ n ∈ Finset.range 3, g' n (indjFS m) * g' n (indkFS m) :=
    Finset.sum_congr rfl fun n hn => by
      rw [hg n (indjFS m) (Finset.mem_range.mp hn) (indjFS_lt m),
          hg n (indkFS m) (Finset.mem_range.mp hn) (indkFS_lt m)]
  rw [hg (indjFS m) (indkFS m) (indjFS_lt m) (indkFS_lt m),
      hg (indkFS m) (indjFS m) (indkFS_lt m) (indjFS_lt m), hsum]

lemma commonFS_congr (lam mu : ℝ) (g g' : Nat → Nat → ℝ)
    (hg : ∀ j k, j < 3 → k < 3 → g j k = g' j k) :
    commonFS lam mu g = commonFS lam mu g' := by
  have hJ : computeJM1 g = computeJM1 g' := computeJM1_congr g g' hg
  have hE2w : E2workFS g = E2workFS g' := E2workFS_congr g g' hg
  have hE2 : E2FS g = E2FS g' := by unfold E2FS; rw [hE2w]
  have hC : CFS g = CFS g' := by unfold CFS; rw [hE2]
  have hdet : commonFS_detC g = commonFS_detC g' := by unfold commonFS_detC; rw [hJ]
  have hCinvw : CinvworkFS g = CinvworkFS g' := by unfold CinvworkFS; rw [hC, hdet]
  have hCinv : CinvFS g = CinvFS g' := by unfold CinvFS; rw [hCinvw]
  have hSw : SworkFS lam mu g = SworkFS lam mu g' := by
    funext m
    unfold SworkFS
    rw [hJ, hCinvw, hCinv, hE2]
  unfold commonFS
  rw [hSw, hCinvw, hJ]

lemma NH_du_congr (Q : Nat) (in0 in0' : Nat → ℝ) (i : Nat)
    (h0 : ∀ n, n < 9 * Q → in0 n = in0' n) (hi : i < Q)
    (a b : Nat) (ha : a < 3) (hb : b < 3) :
    NH_du Q in0 i a b = NH_du Q in0' i a b := by
  unfold NH_du ugA
  apply h0
  have h8 : b * 3 + a ≤ 8 := by omega
  have hm := Nat.mul_le_mul_right Q h8
  omega

lemma NH_qd_congr (Q : Nat) (in1 in1' : Nat → ℝ) (i : Nat)
    (h1 : ∀ n, n < 10 * Q → in1 n = in1' n) (hi : i < Q)
    (k : Nat) (hk : k ≤ 9) :
    qdA Q in1 k i = qdA Q in1' k i := by
  unfold qdA
  apply h1
  have hm := Nat.mul_le_mul_right Q hk
  omega

lemma NH_dXdx_congr (Q : Nat) (in1 in1' : Nat → ℝ) (i : Nat)
    (h1 : ∀ n, n < 10 * Q → in1 n = in1' n) (hi : i < Q)
    (j k : Nat) (hj : j < 3) (hk : k < 3) :
    NH_dXdx Q in1 i j k = NH_dXdx Q in1' i j k := by
  unfold NH_dXdx
  exact NH_qd_congr Q in1 in1' i h1 hi (1 + j * 3 + k) (by omega)

lemma NH_wdetJ_congr (Q : Nat) (in1 in1' : Nat → ℝ) (i : Nat)
    (h1 : ∀ n, n < 10 * Q → in1 n = in1' n) (hi : i < Q) :
    NH_wdetJ Q in1 i = NH_wdetJ Q in1' i := by
  unfold NH_wdetJ
  exact NH_qd_congr Q in1 in1' i h1 hi 0 (by omega)

lemma NH_gradU_congr (Q : Nat) (in0 in0' in1 in1' : Nat → ℝ) (i : Nat)
    (h0 : ∀ n, n < 9 * Q → in0 n = in0' n)
    (h1 : ∀ n, n < 10 * Q → in1 n = in1' n) (hi : i < Q)
    (j k : Nat) (hj : j < 3) (hk : k < 3) :
    NH_gradU Q in0 in1 i j k = NH_gradU Q in0' in1' i j k := by
  unfold NH_gradU
  refine Finset.sum_congr rfl fun m hm => ?_
  have hm3 := Finset.mem_range.mp hm
  rw [NH_dXdx_congr Q in1 in1' i h1 hi m k hm3 hk,
      NH_du_congr Q in0 in0' i h0 hi j m hj hm3]

lemma NH_F_congr (Q : Nat) (in0 in0' in1 in1' : Nat → ℝ) (i : Nat)
    (h0 : ∀ n, n < 9 * Q → in0 n = in0' n)
    (h1 : ∀ n, n < 10 * Q → in1 n = in1' n) (hi : i < Q) :
    NH_F Q in0 in1 i = NH_F Q in0' in1' i := by
  unfold NH_F
  rw [NH_gradU_congr Q in0 in0' in1 in1' i h0 h1 hi 0 0 (by omega) (by omega),
      NH_gradU_congr Q in0 in0' in1 in1' i h0 h1 hi 0 1 (by omega) (by omega),
      NH_gradU_congr Q in0 in0' in1 in1' i h0 h1 hi 0 2 (by omega) (by omega),
      NH_gradU_congr Q in0 in0' in1 in1' i h0 h1 hi 1 0 (by omega) (by omega),
      NH_gradU_congr Q in0 in0' in1 in1' i h0 h1 hi 1 1 (by omega) (by omega),
      NH_gradU_congr Q in0 in0' in1 in1' i h0 h1 hi 1 2 (by omega) (by omega),
      NH_gradU_congr Q in0 in0' in1 in1' i h0 h1 hi 2 0 (by omega) (by omega),
      NH_gradU_congr Q in0 in0' in1 in1' i h0 h1 hi 2 1 (by omega) (by omega),
      NH_gradU_congr Q in0 in0' in1 in1' i h0 h1 hi 2 2 (by omega) (by omega)]

lemma NH_Sw_congr (lam mu : ℝ) (Q : Nat) (in0 in0' in1 in1' : Nat → ℝ) (i : Nat)
    (h0 : ∀ n, n < 9 * Q → in0 n = in0' n)
    (h1 : ∀ n, n < 10 * Q → in1 n = in1' n) (hi : i < Q) :
    NH_Sw lam mu Q in0 in1 i = NH_Sw lam mu Q in0' in1' i := by
  unfold NH_Sw
  rw [commonFS_congr lam mu _ _ fun j k hj hk =>
    NH_gradU_congr Q in0 in0' in1 in1' i h0 h1 hi j k hj hk]

lemma NH_S_congr (lam mu : ℝ) (Q : Nat) (in0 in0' in1 in1' : Nat → ℝ) (i : Nat)
    (h0 : ∀ n, n < 9 * Q → in0 n = in0' n)
    (h1 : ∀ n, n < 10 * Q → in1 n = in1' n) (hi : i < Q) :
    NH_S lam mu Q in0 in1 i = NH_S lam mu Q in0' in1' i := by
  unfold NH_S
  rw [NH_Sw_congr lam mu Q in0 in0' in1 in1' i h0 h1 hi]

lemma NH_P_congr (lam mu : ℝ) (Q : Nat) (in0 in0' in1 in1' : Nat → ℝ) (i j k : Nat)
    (h0 : ∀ n, n < 9 * Q → in0 n = in0' n)
    (h1 : ∀ n, n < 10 * Q → in1 n = in1' n) (hi : i < Q) :
    NH_P lam mu Q in0 in1 i j k = NH_P lam mu Q in0' in1' i j k := by
  unfold NH_P
  rw [NH_F_congr Q in0 in0' in1 in1' i h0 h1 hi,
      NH_S_congr lam mu Q in0 in0' in1 in1' i h0 h1 hi]

lemma NH_dvdX_congr (lam mu : ℝ) (Q : Nat) (in0 in0' in1 in1' : Nat → ℝ) (i k j : Nat)
    (h0 : ∀ n, n < 9 * Q → in0 n = in0' n)
    (h1 : ∀ n, n < 10 * Q → in1 n = in1' n) (hi : i < Q) (hk : k < 3) :
    NH_dvdX lam mu Q in0 in1 i k j = NH_dvdX lam mu Q in0' in1' i k j := by
  unfold NH_dvdX
  refine Finset.sum_congr rfl fun m hm => ?_
  rw [NH_dXdx_congr Q in1 in1' i h1 hi k m hk (Finset.mem_range.mp hm),
      NH_P_congr lam mu Q in0 in0' in1 in1' i j m h0 h1 hi,
      NH_wdetJ_congr Q in1 in1' i h1 hi]

/-- C8.  Each kernel body in the snapshot (setup, mass,
ElasFSResidual_NH) is deterministic and reads only its declared input
region: two invocations with equal contexts, equal point count `Q`, and
input buffers that agree entry-wise on the declared
`numComponents × numPoints` input regions return equal status codes and
output buffers that agree entry-wise on the declared output regions —
the outputs depend on nothing but those arguments. -/
theorem claim_C8_kernel_determinism :
    (∀ (c1 c2 : Unit) (Q : Nat) (weight J rho weight' J' rho' : Nat → ℝ),
      (∀ n, n < Q → weight n = weight' n) →
      (∀ n, n < 4 * Q → J n = J' n) →
      (setup c1 Q weight J rho).1 = (setup c2 Q weight' J' rho').1 ∧
      ∀ n, n < Q → (setup c1 Q weight J rho).2 n = (setup c2 Q weight' J' rho').2 n) ∧
    (∀ (c1 c2 : Unit) (Q : Nat) (rho u v rho' u' v' : Nat → ℝ),
      (∀ n, n < Q → rho n = rho' n) →
      (∀ n, n < Q → u n = u' n) →
      (mass c1 Q rho u v).1 = (mass c2 Q rho' u' v').1 ∧
      ∀ n, n < Q → (mass c1 Q rho u v).2 n = (mass c2 Q rho' u' v').2 n) ∧
    (∀ (ctx : Physics) (Q : Nat) (in0 in1 out0 out1 in0' in1' out0' out1' : Nat → ℝ),
      (∀ n, n < 9 * Q → in0 n = in0' n) →
      (∀ n, n < 10 * Q → in1 n = in1' n) →
      (ElasFSResidual_NH ctx Q in0 in1 out0 out1).1 =
        (ElasFSResidual_NH ctx Q in0' in1' out0' out1').1 ∧
      (∀ n, n < 9 * Q →
        (ElasFSResidual_NH ctx Q in0 in1 out0 out1).2.1 n =
          (ElasFSResidual_NH ctx Q in0' in1' out0' out1').2.1 n) ∧
      (∀ n, n < 9 * Q →
        (ElasFSResidual_NH ctx Q in0 in1 out0 out1).2.2 n =
          (ElasFSResidual_NH ctx Q in0' in1' out0' out1').2.2 n)) := by
  refine ⟨?_, ?_, ?_⟩
  · intro c1 c2 Q weight J rho weight' J' rho' hw hJ
    refine ⟨rfl, fun n hn => ?_⟩
    simp only [setup]
    rw [if_pos hn, if_pos hn, hw n hn, hJ (n + Q * 0) (by omega),
        hJ (n + Q * 3) (by omega), hJ (n + Q * 1) (by omega),
        hJ (n + Q * 2) (by omega)]
  · intro c1 c2 Q rho u v rho' u' v' hr hu
    refine ⟨rfl, fun n hn => ?_⟩
    simp only [mass]
    rw [if_pos hn, if_pos hn, hr n hn, hu n hn]
  · intro ctx Q in0 in1 out0 out1 in0' in1' out0' out1' h0 h1
    refine ⟨rfl, fun n hn => ?_, fun n hn => ?_⟩
    · have hQ : 0 < Q := by omega
      have hi : n % Q < Q := Nat.mod_lt n hQ
      have hnine : n / Q < 9 := by
        rw [Nat.div_lt_iff_lt_mul hQ]
        omega
      have hk : n / Q / 3 < 3 := by omega
      simp only [ElasFSResidual_NH]
      rw [if_pos hn, if_pos hn]
      exact NH_dvdX_congr (NH_lambda ctx) (NH_mu ctx) Q in0 in0' in1 in1'
        (n % Q) (n / Q / 3) (n / Q % 3) h0 h1 hi hk
    · have hQ : 0 < Q := by omega
      have hi : n % Q < Q := Nat.mod_lt n hQ
      have hnine : n / Q < 9 := by
        rw [Nat.div_lt_iff_lt_mul hQ]
        omega
      have hk : n / Q / 3 < 3 := by omega
      have hj : n / Q % 3 < 3 := by omega
      simp only [ElasFSResidual_NH]
      rw [if_pos hn, if_pos hn]
      exact NH_gradU_congr Q in0 in0' in1 in1' (n % Q) h0 h1 hi
        (n / Q / 3) (n / Q % 3) hk hj

/-- Agreeing-on-the-read-region input buffer used to witness C8. -/
noncomputable def bufA : Nat → ℝ := fun n => if n < 10 then 1 else 5

/-- A second buffer agreeing with `bufA` on the read region but differing
beyond it. -/
noncomputable def bufB : Nat → ℝ := fun n => if n < 10 then 1 else 7

/-- The Physics context used to witness C8. -/
noncomputable def physW : Physics := { nu := 0, E := 1 }

/-- Witness for C8: the three determinism clauses applied at `Q = 1` to
buffers that agree on the declared input regions but differ beyond them. -/
theorem claim_C8_witness :
    (setup () 1 bufA bufA bufA).2 0 = (setup () 1 bufB bufB bufA).2 0 ∧
    (mass () 1 bufA bufA bufA).2 0 = (mass () 1 bufB bufB bufA).2 0 ∧
    (ElasFSResidual_NH physW 1 bufA bufA bufA bufA).2.1 0 =
      (ElasFSResidual_NH physW 1 bufB bufB bufA bufA).2.1 0 :=
  ⟨(claim_C8_kernel_determinism.1 () () 1 bufA bufA bufA bufB bufB bufA
      (fun n hn => by have h10 : n < 10 := by omega
                      simp [bufA, bufB, h10])
      (fun n hn => by have h10 : n < 10 := by omega
                      simp [bufA, bufB, h10])).2 0 (by omega),
   (claim_C8_kernel_determinism.2.1 () () 1 bufA bufA bufA bufB bufB bufA
      (fun n hn => by have h10 : n < 10 := by omega
                      simp [bufA, bufB, h10])
      (fun n hn => by have h10 : n < 10 := by omega
                      simp [bufA, bufB, h10])).2 0 (by omega),
   ((claim_C8_kernel_determinism.2.2 physW 1 bufA bufA bufA bufA bufB bufB bufA bufA
      (fun n hn => by have h10 : n < 10 := by omega
                      simp [bufA, bufB, h10])
      (fun n hn => by have h10 : n < 10 := by omega
                      simp [bufA, bufB, h10])).2.1) 0 (by omega)⟩

/- ===================================================================
   Claim C9: computeMatinvSym divides with no guard and always returns
   success; a degenerate deformation gradient reaches the division with
   a zero divisor
   =================================================================== -/

/-- The degenerate displacement gradient `grad_u = -I`, for which
`F = I + grad_u = 0` and `J = det F = 0`. -/
noncomputable def gradUdeg : Nat → Nat → ℝ := fun i j => if i = j then -1 else 0

/-- C9.  computeMatinvSym divides every adjugate entry by `detA` with no
guard and returns CEED_ERROR_SUCCESS for every input, including
`detA = 0`; commonFS passes it the divisor `detC = (Jm1 + 1)^2` and also
returns CEED_ERROR_SUCCESS unconditionally; for the degenerate
deformation gradient `grad_u = -I` one has `Jm1 = computeJM1 grad_u = -1`,
so the divisor `detC` reaching the division is exactly `0`, and the
enclosing kernel ElasFSResidual_NH still returns CEED_ERROR_SUCCESS for
every input — a degenerate element never surfaces as a kernel failure. -/
theorem claim_C9_unguarded_division_success :
    (∀ (A : Nat → Nat → ℝ) (detA : ℝ),
      (computeMatinvSym A detA).1 = CEED_ERROR_SUCCESS) ∧
    (∀ (A : Nat → Nat → ℝ) (m : Nat),
      (computeMatinvSym A 0).2 m =
        mk6 (A 1 1 * A 2 2 - A 1 2 * A 2 1)
            (A 0 0 * A 2 2 - A 0 2 * A 2 0)
            (A 0 0 * A 1 1 - A 0 1 * A 1 0)
            (A 0 2 * A 1 0 - A 0 0 * A 1 2)
            (A 0 1 * A 1 2 - A 0 2 * A 1 1)
            (A 0 2 * A 2 1 - A 0 1 * A 2 2) m / 0) ∧
    (∀ (lam mu : ℝ) (g : Nat → Nat → ℝ),
      (commonFS lam mu g).1 = CEED_ERROR_SUCCESS ∧
      CinvworkFS g = (computeMatinvSym (CFS g) (commonFS_detC g)).2) ∧
    computeJM1 gradUdeg = -1 ∧
    commonFS_detC gradUdeg = 0 ∧
    (∀ (ctx : Physics) (Q : Nat) (in0 in1 out0 out1 : Nat → ℝ),
      (ElasFSResidual_NH ctx Q in0 in1 out0 out1).1 = CEED_ERROR_SUCCESS) := by
  have hJ : computeJM1 gradUdeg = -1 := by
    unfold computeJM1 gradUdeg
    norm_num
  refine ⟨fun A detA => rfl, fun A m => rfl, fun lam mu g => ⟨rfl, rfl⟩, hJ, ?_, ?_⟩
  · unfold commonFS_detC
    rw [hJ]
    norm_num
  · intro ctx Q in0 in1 out0 out1
    rfl
